import Mathlib

/-
Verification of the hgcal-dev data-preparation pipeline
(src/hgcal_dev/datasets/hgcal.py), shallowly embedded in Lean 4.

Conventions of the embedding:
- numpy float fractions are modelled as rationals; Python int() truncation of
  a product frac * n (non-negative on the validated domain, where truncation
  and floor agree) is Int.floor followed by Int.toNat;
- Python list slicing (including negative indices) is modelled by pySlice;
- the numpy global random generator is modelled as an abstract draw stream
  rng : seed -> position -> bound -> Nat, threaded as explicit state;
- fallible operations return Option.
-/

/-- Normalisation of one Python slice endpoint for a list of length n:
a negative index counts from the end and is clamped below at 0, a
non-negative index is clamped above at n. -/
def pyIdx (n : ℕ) (i : ℤ) : ℕ :=
  if i < 0 then ((n : ℤ) + i).toNat else min i.toNat n

/-- Python slice xs[a:b] (step 1), with full negative-index semantics. -/
def pySlice {α : Type} (xs : List α) (a b : ℤ) : List α :=
  (xs.take (pyIdx xs.length b)).drop (pyIdx xs.length a)

/-- Python int(frac * n) for a fraction and a count, as the source computes
event/train/test counts; on the validated domain frac * n is non-negative,
where int() truncation coincides with the floor. -/
def pyIntMulNat (frac : ℚ) (n : ℕ) : ℕ :=
  (⌊frac * (n : ℚ)⌋).toNat

/-- Embedding of HGCalDataModule.train_val_test_split.  Mirrors the source:
num_events = int(event_frac * len(events)); events = events[:num_events];
num_train = int(train_frac * num_events); num_test = int(test_frac * num_events);
train = events[:num_train]; val = events[num_train:-num_test];
test = events[-num_test:]. -/
def train_val_test_split {α : Type} (event_frac train_frac test_frac : ℚ)
    (events : List α) : List α × List α × List α :=
  let num_events : ℕ := pyIntMulNat event_frac events.length
  let events2 := pySlice events 0 (num_events : ℤ)
  let num_train_events : ℕ := pyIntMulNat train_frac num_events
  let num_test_events : ℕ := pyIntMulNat test_frac num_events
  let train_events := pySlice events2 0 (num_train_events : ℤ)
  let val_events := pySlice events2 (num_train_events : ℤ) (-(num_test_events : ℤ))
  let test_events := pySlice events2 (-(num_test_events : ℤ)) (events2.length : ℤ)
  (train_events, val_events, test_events)

/-- The split as written in the specification (positive slice bounds):
train = events[0 : n_train], test = events[n_events - n_test : n_events],
val = events[n_train : n_events - n_test]. -/
def split_spec_formulas {α : Type} (event_frac train_frac test_frac : ℚ)
    (events : List α) : List α × List α × List α :=
  let n_events : ℕ := pyIntMulNat event_frac events.length
  let evs := events.take n_events
  let n_train : ℕ := pyIntMulNat train_frac n_events
  let n_test : ℕ := pyIntMulNat test_frac n_events
  (evs.take n_train, (evs.take (n_events - n_test)).drop n_train,
    evs.drop (n_events - n_test))

-- evaluation lemmas for the concrete count computations used below
theorem pyIntMulNat_one_five : pyIntMulNat 1 5 = 5 := by
  norm_num [pyIntMulNat]
  decide

theorem pyIntMulNat_train_five : pyIntMulNat (4/5) 5 = 4 := by
  norm_num [pyIntMulNat]
  decide

theorem pyIntMulNat_test_five : pyIntMulNat (1/10) 5 = 0 := by
  norm_num [pyIntMulNat]

theorem pyIntMulNat_one_six : pyIntMulNat 1 6 = 6 := by
  norm_num [pyIntMulNat]
  decide

theorem pyIntMulNat_train_six : pyIntMulNat (4/5) 6 = 4 := by
  norm_num [pyIntMulNat]
  decide

theorem pyIntMulNat_test_six : pyIntMulNat (1/10) 6 = 0 := by
  norm_num [pyIntMulNat]

/-- Rounding half to even, the semantics of numpy round on exactly
representable inputs; on a tie the even neighbour is chosen. -/
def roundHalfEven (q : ℚ) : ℤ :=
  if Int.fract q = 1/2 then (if ⌊q⌋ % 2 = 0 then ⌊q⌋ else ⌊q⌋ + 1) else round q

/-- Minimum of a list of integers, with default 0 on the empty list (numpy
min raises on an empty axis, so callers guard for emptiness). -/
def intMinD (l : List ℤ) : ℤ :=
  match l with
  | [] => 0
  | h :: t => t.foldl min h

theorem foldl_min_le_init (t : List ℤ) (a : ℤ) : t.foldl min a ≤ a := by
  induction t generalizing a with
  | nil => exact le_refl a
  | cons y ys ih =>
    exact le_trans (ih (min a y)) (min_le_left a y)

theorem foldl_min_le_mem (t : List ℤ) (a : ℤ) : ∀ x ∈ t, t.foldl min a ≤ x := by
  induction t generalizing a with
  | nil => intro x hx; cases hx
  | cons y ys ih =>
    intro x hx
    rcases List.mem_cons.mp hx with rfl | hx
    · exact le_trans (foldl_min_le_init ys (min a x)) (min_le_right a x)
    · exact ih (min a y) x hx

theorem foldl_min_mem (t : List ℤ) (a : ℤ) : t.foldl min a = a ∨ t.foldl min a ∈ t := by
  induction t generalizing a with
  | nil => exact Or.inl rfl
  | cons y ys ih =>
    rcases ih (min a y) with h | h
    · rcases le_total a y with hay | hya
      · left
        simpa [min_eq_left hay] using h
      · right
        rw [List.foldl_cons, h, min_eq_right hya]
        exact List.mem_cons_self y ys
    · right
      exact List.mem_cons_of_mem y h

theorem le_foldl_min (t : List ℤ) (a c : ℤ) (hca : c ≤ a) (h : ∀ x ∈ t, c ≤ x) :
    c ≤ t.foldl min a := by
  induction t generalizing a with
  | nil => exact hca
  | cons y ys ih =>
    exact ih (min a y) (le_min hca (h y (List.mem_cons_self y ys)))
      (fun x hx => h x (List.mem_cons_of_mem y hx))

theorem intMinD_le (l : List ℤ) : ∀ x ∈ l, intMinD l ≤ x := by
  intro x hx
  match l with
  | [] => cases hx
  | h :: t =>
    rcases List.mem_cons.mp hx with rfl | hx
    · exact foldl_min_le_init t x
    · exact foldl_min_le_mem t h x hx

theorem intMinD_mem (l : List ℤ) (h : l ≠ []) : intMinD l ∈ l := by
  match l with
  | [] => exact absurd rfl h
  | a :: t =>
    rcases foldl_min_mem t a with heq | hmem
    · rw [intMinD, heq]
      exact List.mem_cons_self a t
    · exact List.mem_cons_of_mem a hmem

theorem le_intMinD (l : List ℤ) (c : ℤ) (h : l ≠ []) (hc : ∀ x ∈ l, c ≤ x) :
    c ≤ intMinD l := by
  match l with
  | [] => exact absurd rfl h
  | a :: t =>
    exact le_foldl_min t a c (hc a (List.mem_cons_self a t))
      (fun x hx => hc x (List.mem_cons_of_mem a hx))

theorem intMinD_map_sub_self (l : List ℤ) (h : l ≠ []) :
    intMinD (l.map (fun x => x - intMinD l)) = 0 := by
  have hzero : (0 : ℤ) ∈ l.map (fun x => x - intMinD l) :=
    List.mem_map.mpr ⟨intMinD l, intMinD_mem l h, sub_self _⟩
  have hne : l.map (fun x => x - intMinD l) ≠ [] := by
    simpa [List.map_eq_nil_iff] using h
  refine le_antisymm (intMinD_le _ 0 hzero) (le_intMinD _ 0 hne ?_)
  intro x hx
  rcases List.mem_map.mp hx with ⟨y, hy, rfl⟩
  exact sub_nonneg.mpr (intMinD_le l y hy)

/-- Embedding of the voxel quantization in HGCalDataset._get_pc_feat_labels:
pc = np.round(block[:, :3] / voxel_size); pc -= pc.min(0, keepdims=1).
Returns none on an empty event, where the numpy reduction raises. -/
def quantize (voxel_size : ℚ) (pts : List (ℚ × ℚ × ℚ)) :
    Option (List (ℤ × ℤ × ℤ)) :=
  let pc := pts.map (fun p => (roundHalfEven (p.1 / voxel_size),
    roundHalfEven (p.2.1 / voxel_size), roundHalfEven (p.2.2 / voxel_size)))
  if pc = [] then none
  else
    let m1 := intMinD (pc.map (fun p => p.1))
    let m2 := intMinD (pc.map (fun p => p.2.1))
    let m3 := intMinD (pc.map (fun p => p.2.2))
    some (pc.map (fun p => (p.1 - m1, p.2.1 - m2, p.2.2 - m3)))

/-- The quantization as the specification words it, parameterized by the
scalar rounding function: integer coordinates rnd(xyz / voxel_size), then
subtract the per-axis minimum. -/
def specQuantize (rnd : ℚ → ℤ) (voxel_size : ℚ) (pts : List (ℚ × ℚ × ℚ)) :
    List (ℤ × ℤ × ℤ) :=
  let pc := pts.map (fun p => (rnd (p.1 / voxel_size),
    rnd (p.2.1 / voxel_size), rnd (p.2.2 / voxel_size)))
  let m1 := intMinD (pc.map (fun p => p.1))
  let m2 := intMinD (pc.map (fun p => p.2.1))
  let m3 := intMinD (pc.map (fun p => p.2.2))
  pc.map (fun p => (p.1 - m1, p.2.1 - m2, p.2.2 - m3))

theorem intMinD_map_sub (l : List (ℤ × ℤ × ℤ)) (f : ℤ × ℤ × ℤ → ℤ)
    (h : l ≠ []) : intMinD (l.map (fun p => f p - intMinD (l.map f))) = 0 := by
  have hmap : l.map (fun p => f p - intMinD (l.map f))
      = (l.map f).map (fun x => x - intMinD (l.map f)) := by
    rw [List.map_map]
    rfl
  rw [hmap]
  exact intMinD_map_sub_self (l.map f) (by simpa [List.map_eq_nil_iff] using h)

theorem rhe_half_eval : roundHalfEven ((5:ℚ)/10) = 0 := by
  norm_num [roundHalfEven, Int.fract]

theorem rhe_threehalf_eval : roundHalfEven ((15:ℚ)/10) = 2 := by
  norm_num [roundHalfEven, Int.fract]

theorem rhe_fivehalf_eval : roundHalfEven ((25:ℚ)/10) = 2 := by
  norm_num [roundHalfEven, Int.fract]

/-- C4 counterexample: numpy round is round-half-to-even, so the documented
example voxel_size = 10 over coordinates [(5,5,5), (15,25,5)] quantizes to
[(0,0,0), (2,2,0)] (0.5 rounds to 0, 1.5 and 2.5 both round to 2), not to
the [(0,0,0), (1,2,0)] the claim states. -/
theorem quantize_example_refutes_claim :
    quantize 10 [((5:ℚ), (5:ℚ), (5:ℚ)), (15, 25, 5)] = some [(0,0,0), (2,2,0)] ∧
    (some [((0:ℤ),(0:ℤ),(0:ℤ)), (2,2,0)] ≠
      some [((0:ℤ),(0:ℤ),(0:ℤ)), (1,2,0)]) := by
  constructor
  · simp only [quantize, List.map_cons, List.map_nil,
      rhe_half_eval, rhe_threehalf_eval, rhe_fivehalf_eval]
    decide
  · decide

/-- C4 (amended): for every event with at least one hit and positive
voxel_size, the quantized coordinates equal roundHalfEven(xyz / voxel_size)
(numpy round-half-to-even, not round-half-away) translated so the per-axis
minimum is exactly (0,0,0); on the documented example the output is
[(0,0,0), (2,2,0)]. -/
theorem quantize_eq_round_translate (voxel_size : ℚ) (pts : List (ℚ × ℚ × ℚ))
    (hne : pts ≠ []) (hvs : 0 < voxel_size) :
    quantize voxel_size pts = some (specQuantize roundHalfEven voxel_size pts) ∧
    intMinD ((specQuantize roundHalfEven voxel_size pts).map (fun p => p.1)) = 0 ∧
    intMinD ((specQuantize roundHalfEven voxel_size pts).map (fun p => p.2.1)) = 0 ∧
    intMinD ((specQuantize roundHalfEven voxel_size pts).map (fun p => p.2.2)) = 0 := by
  have hpc : pts.map (fun p => (roundHalfEven (p.1 / voxel_size),
      roundHalfEven (p.2.1 / voxel_size), roundHalfEven (p.2.2 / voxel_size))) ≠ [] := by
    simpa [List.map_eq_nil_iff] using hne
  refine ⟨?_, ?_, ?_, ?_⟩
  · simp only [quantize, specQuantize, if_neg hpc]
  · simp only [specQuantize]
    rw [List.map_map]
    exact intMinD_map_sub _ (fun p => p.1) hpc
  · simp only [specQuantize]
    rw [List.map_map]
    exact intMinD_map_sub _ (fun p => p.2.1) hpc
  · simp only [specQuantize]
    rw [List.map_map]
    exact intMinD_map_sub _ (fun p => p.2.2) hpc

/-- C4 witness: the amended theorem applied at voxel_size = 10 and the
two-hit example event. -/
theorem quantize_eq_round_translate_witness :
    quantize 10 [((5:ℚ), (5:ℚ), (5:ℚ)), (15, 25, 5)]
      = some (specQuantize roundHalfEven 10 [((5:ℚ), (5:ℚ), (5:ℚ)), (15, 25, 5)]) :=
  (quantize_eq_round_translate 10 [((5:ℚ), (5:ℚ), (5:ℚ)), (15, 25, 5)]
    (by decide) (by norm_num)).1

/-- C1: the source computes val as events[num_train:-num_test] and test as
events[-num_test:].  When num_test = 0 the Python index -0 is 0, so the val
slice is empty and the test slice is the whole truncated list, contradicting
the specified formulas test = events[n_events - n_test : n_events] and
val = events[n_train : n_events - n_test].  Concretely, for five events with
event_frac = 1, train_frac = 4/5, test_frac = 1/10 (so n_train = 4,
n_test = 0), the code yields (train, val, test) = ([0,1,2,3], [], all five
events), while the formulas of the specification yield ([0,1,2,3], [4], []). -/
theorem train_val_test_split_negzero_diverges :
    train_val_test_split (1 : ℚ) (4/5) (1/10) ([0,1,2,3,4] : List ℕ)
      = ([0,1,2,3], [], [0,1,2,3,4]) ∧
    split_spec_formulas (1 : ℚ) (4/5) (1/10) ([0,1,2,3,4] : List ℕ)
      = ([0,1,2,3], [4], []) := by
  constructor
  · simp only [train_val_test_split, List.length_cons, List.length_nil, Nat.reduceAdd,
      pyIntMulNat_one_five, pyIntMulNat_train_five, pyIntMulNat_test_five]
    decide
  · simp only [split_spec_formulas, List.length_cons, List.length_nil, Nat.reduceAdd,
      pyIntMulNat_one_five, pyIntMulNat_train_five, pyIntMulNat_test_five]
    decide

/-- C2: on six events with event_frac = 1, train_frac = 4/5, test_frac = 1/10
(a validated triple, train_frac + test_frac <= 1), num_test = 0 and the source
returns test = the whole truncated list, so the three slice lengths sum to 10
instead of floor(event_frac * 6) = 6, and train and test are not disjoint
(event 10 lies in both). -/
theorem train_val_test_split_sizes_diverge :
    (train_val_test_split (1 : ℚ) (4/5) (1/10) ([10,11,12,13,14,15] : List ℕ)
      = ([10,11,12,13], [], [10,11,12,13,14,15])) ∧
    pyIntMulNat 1 6 = 6 ∧
    (4 + 0 + 6 ≠ 6) ∧
    10 ∈ (train_val_test_split (1 : ℚ) (4/5) (1/10) ([10,11,12,13,14,15] : List ℕ)).1 ∧
    10 ∈ (train_val_test_split (1 : ℚ) (4/5) (1/10) ([10,11,12,13,14,15] : List ℕ)).2.2 := by
  have h : train_val_test_split (1 : ℚ) (4/5) (1/10) ([10,11,12,13,14,15] : List ℕ)
      = ([10,11,12,13], [], [10,11,12,13,14,15]) := by
    simp only [train_val_test_split, List.length_cons, List.length_nil, Nat.reduceAdd,
      pyIntMulNat_one_six, pyIntMulNat_train_six, pyIntMulNat_test_six]
    decide
  refine ⟨h, pyIntMulNat_one_six, by decide, ?_, ?_⟩ <;> rw [h] <;> decide

/-- Task-selected label view of the per-hit label block y (N rows, 2
columns): either the full two-column block or one selected column. -/
inductive Labels where
  | full : List (ℤ × ℤ) → Labels
  | col : List ℤ → Labels
deriving DecidableEq

/-- The if/elif/else chain on self.task in HGCalDataset._get_pc_feat_labels:
panoptic keeps y whole, semantic takes column 0, instance takes column 1,
anything else raises RuntimeError (modelled as none). -/
def taskLabels (task : String) (y : List (ℤ × ℤ)) : Option Labels :=
  if task = "panoptic" then some (Labels.full y)
  else if task = "semantic" then some (Labels.col (y.map Prod.fst))
  else if task = "instance" then some (Labels.col (y.map Prod.snd))
  else none

/-- One row of the feature block x: the three spatial coordinates followed
by the remaining feature columns. -/
structure HitRow where
  px : ℚ
  py : ℚ
  pz : ℚ
  rest : List ℚ
deriving DecidableEq

/-- Embedding of HGCalDataset._get_pc_feat_labels: resolve the task label
view (raising on an unknown task), quantize the spatial columns (raising on
an empty event, where the numpy min reduction errors), and return the
triple (pc, feat, labels) with feat the untouched feature block. -/
def get_pc_feat_labels (task : String) (voxel_size : ℚ) (x : List HitRow)
    (y : List (ℤ × ℤ)) : Option (List (ℤ × ℤ × ℤ) × List HitRow × Labels) :=
  match taskLabels task y with
  | none => none
  | some labels =>
    match quantize voxel_size (x.map (fun r => (r.px, r.py, r.pz))) with
    | none => none
    | some pc => some (pc, x, labels)

theorem quantize_isSome (voxel_size : ℚ) (pts : List (ℚ × ℚ × ℚ))
    (h : pts ≠ []) : ∃ out, quantize voxel_size pts = some out := by
  simp only [quantize]
  rw [if_neg (fun hc => h (List.map_eq_nil_iff.mp hc))]
  exact ⟨_, rfl⟩

/-- C6 counterexample: on an event with zero hits the numpy min reduction
raises even though the task name panoptic is valid, so the loader does not
error exactly on invalid task names. -/
theorem get_pc_feat_labels_empty_event_errors :
    get_pc_feat_labels "panoptic" 10 [] [] = none ∧
    taskLabels "panoptic" [] = some (Labels.full []) := by
  constructor
  · rfl
  · rfl

/-- C6 (amended): on every event with at least one hit, the per-event loader
errors if and only if the task name is not one of panoptic, semantic,
instance; for panoptic it returns the full 2-column label block, for
semantic column 0, for instance column 1.  (On a zero-hit event the loader
errors for every task name, because the numpy min reduction raises.) -/
theorem get_pc_feat_labels_error_iff (task : String) (voxel_size : ℚ)
    (x : List HitRow) (y : List (ℤ × ℤ)) (hx : x ≠ []) :
    (get_pc_feat_labels task voxel_size x y = none ↔
      task ≠ "panoptic" ∧ task ≠ "semantic" ∧ task ≠ "instance") ∧
    (task = "panoptic" →
      (get_pc_feat_labels task voxel_size x y).map (fun r => r.2.2)
        = some (Labels.full y)) ∧
    (task = "semantic" →
      (get_pc_feat_labels task voxel_size x y).map (fun r => r.2.2)
        = some (Labels.col (y.map Prod.fst))) ∧
    (task = "instance" →
      (get_pc_feat_labels task voxel_size x y).map (fun r => r.2.2)
        = some (Labels.col (y.map Prod.snd))) := by
  obtain ⟨pc, hpc⟩ := quantize_isSome voxel_size (x.map (fun r => (r.px, r.py, r.pz)))
    (fun hc => hx (List.map_eq_nil_iff.mp hc))
  by_cases h1 : task = "panoptic"
  · subst h1
    simp [get_pc_feat_labels, taskLabels, hpc]
  · by_cases h2 : task = "semantic"
    · subst h2
      simp [get_pc_feat_labels, taskLabels, hpc]
    · by_cases h3 : task = "instance"
      · subst h3
        simp [get_pc_feat_labels, taskLabels, hpc]
      · simp [get_pc_feat_labels, taskLabels, h1, h2, h3]

/-- C6 witness: the amended theorem applied to a one-hit event with task
semantic, returning label column 0. -/
theorem get_pc_feat_labels_error_iff_witness :
    (get_pc_feat_labels "semantic" 10 [⟨1, 2, 3, []⟩] [(4, 7)]).map
      (fun r => r.2.2) = some (Labels.col ([((4:ℤ), (7:ℤ))].map Prod.fst)) :=
  (get_pc_feat_labels_error_iff "semantic" 10 [⟨1, 2, 3, []⟩] [(4, 7)]
    (by decide)).2.2.1 rfl

/-- Abstract draw stream modelling the numpy global generator: given the
seed, the position in the stream and the exclusive bound requested by the
draw, produce a raw natural number (used modulo the bound). -/
abbrev Rng := ℕ → ℕ → ℕ → ℕ

/-- State of the numpy global generator: the seed it was last seeded with
and the current position in its stream. -/
structure NpState where
  sd : ℕ
  pos : ℕ
deriving DecidableEq

/-- np.random.seed(s): discards the previous generator state and restarts
the stream of the given seed at position 0. -/
def npRandomSeed (s : ℕ) (_prev : NpState) : NpState := ⟨s, 0⟩

/-- One raw event file: its path stem, the feature block x (one row of
feature columns per hit) and the label block y (semantic class, instance
id per hit; class 0 is noise). -/
structure RawEvent where
  path : String
  x : List (List ℚ)
  y : List (ℤ × ℤ)

/-- One persisted noise-filtered event: np.savez of the selected rows. -/
structure NoisyWrite where
  path : String
  x : List (List ℚ)
  y : List (ℤ × ℤ)

/-- np.where(y[:, 0] != 0)[0]: ascending indices of the non-noise hits. -/
def nonNoiseIndices (y : List (ℤ × ℤ)) : List ℕ :=
  (List.range y.length).filter (fun i => (y.getD i (0, 0)).1 ≠ 0)

/-- np.where(y[:, 0] == 0)[0]: ascending indices of the noise hits. -/
def noiseIndices (y : List (ℤ × ℤ)) : List ℕ :=
  (List.range y.length).filter (fun i => (y.getD i (0, 0)).1 = 0)

/-- int(noise_indices.shape[0] * noise_level): the requested sample size. -/
def noiseSampleSize (noise_level : ℚ) (count : ℕ) : ℕ :=
  (⌊(count : ℚ) * noise_level⌋).toNat

/-- The positions within the noise-index array drawn by
np.random.choice(noise_indices, size=...): the numpy default is sampling
WITH replacement, one independent bounded draw from the stream per slot. -/
def selectedNoisePositions (rng : Rng) (st : NpState) (noise_level : ℚ)
    (count : ℕ) : List ℕ :=
  (List.range (noiseSampleSize noise_level count)).map
    (fun i => rng st.sd (st.pos + i) count % count)

/-- The selected noise indices of one event, as drawn immediately after
np.random.seed(noise_seed). -/
def selectedNoiseIdx (rng : Rng) (noise_seed : ℕ) (noise_level : ℚ)
    (ev : RawEvent) : List ℕ :=
  (selectedNoisePositions rng ⟨noise_seed, 0⟩ noise_level
      (noiseIndices ev.y).length).map
    (fun p => (noiseIndices ev.y).getD p 0)

/-- selected_indices = np.concatenate((non_noise_indices,
selected_noise_indices)) for one event. -/
def selectedIndices (rng : Rng) (noise_seed : ℕ) (noise_level : ℚ)
    (ev : RawEvent) : List ℕ :=
  nonNoiseIndices ev.y ++ selectedNoiseIdx rng noise_seed noise_level ev

/-- The loop body of HGCalDataModule.make_noisy_data for one event: split
indices by noise label, reseed the global generator with the fixed
noise_seed, draw the noise sample, and persist the selected rows when the
selection is non-empty. -/
def processEvent (rng : Rng) (noise_seed : ℕ) (noise_level : ℚ)
    (ev : RawEvent) (st : NpState) : Option NoisyWrite × NpState :=
  let non_noise_indices := nonNoiseIndices ev.y
  let noise_indices := noiseIndices ev.y
  let st1 := npRandomSeed noise_seed st
  let size := noiseSampleSize noise_level noise_indices.length
  let selected_noise_indices :=
    (selectedNoisePositions rng st1 noise_level noise_indices.length).map
      (fun p => noise_indices.getD p 0)
  let st2 : NpState := ⟨st1.sd, st1.pos + size⟩
  let selected := non_noise_indices ++ selected_noise_indices
  (if 0 < selected.length then
      some ⟨ev.path, selected.map (fun i => ev.x.getD i []),
        selected.map (fun i => ev.y.getD i (0, 0))⟩
    else none, st2)

/-- Embedding of HGCalDataModule.make_noisy_data: returns immediately when
noise_level == 1.0, otherwise folds processEvent over the raw events,
threading the numpy global generator state and collecting the writes. -/
def make_noisy_data (rng : Rng) (noise_seed : ℕ) (noise_level : ℚ)
    (st0 : NpState) (raw_events : List RawEvent) :
    List NoisyWrite × NpState :=
  if noise_level = 1 then ([], st0)
  else
    raw_events.foldl
      (fun a ev =>
        let r := processEvent rng noise_seed noise_level ev a.2
        (a.1 ++ r.1.toList, r.2))
      (([] : List NoisyWrite), st0)

/-- The draw stream that always returns 0, a concrete generator behaviour
used in counterexamples and witnesses. -/
def rng0 : Rng := fun _ _ _ => 0

/-- A concrete raw event whose four hits are all noise. -/
def evC3 : RawEvent :=
  ⟨"a", [[1], [1], [1], [1]], [(0, 1), (0, 2), (0, 3), (0, 4)]⟩

/-- A concrete raw event with one non-noise hit and four noise hits. -/
def evC9 : RawEvent :=
  ⟨"b", [[2], [2], [2], [2], [2]], [(1, 5), (0, 1), (0, 2), (0, 3), (0, 4)]⟩

theorem processEvent_fst_state (rng : Rng) (ns : ℕ) (level : ℚ)
    (ev : RawEvent) (st st' : NpState) :
    (processEvent rng ns level ev st).1 = (processEvent rng ns level ev st').1 :=
  rfl

theorem processEvent_fst_eq (rng : Rng) (ns : ℕ) (level : ℚ)
    (ev : RawEvent) (st : NpState) :
    (processEvent rng ns level ev st).1
      = if 0 < (selectedIndices rng ns level ev).length
          then some ⟨ev.path,
            (selectedIndices rng ns level ev).map (fun i => ev.x.getD i []),
            (selectedIndices rng ns level ev).map (fun i => ev.y.getD i (0, 0))⟩
          else none :=
  rfl

theorem foldl_noisy_writes (rng : Rng) (ns : ℕ) (level : ℚ)
    (evs : List RawEvent) (acc : List NoisyWrite) (st st0 : NpState) :
    (evs.foldl (fun a ev =>
        let r := processEvent rng ns level ev a.2
        (a.1 ++ r.1.toList, r.2)) (acc, st)).1
      = acc ++ evs.filterMap (fun e => (processEvent rng ns level e st0).1) := by
  induction evs generalizing acc st with
  | nil => simp
  | cons e es ih =>
    simp only [List.foldl_cons, List.filterMap_cons]
    rw [ih]
    rw [processEvent_fst_state rng ns level e st st0]
    cases hfe : (processEvent rng ns level e st0).1 with
    | none => simp
    | some w => simp

/-- C7: when noise_level == 1.0 make_noisy_data returns immediately: no
writes are emitted and the generator state is untouched, for every draw
stream, noise seed, initial state and raw event list. -/
theorem make_noisy_data_noop_at_one (rng : Rng) (noise_seed : ℕ)
    (st0 : NpState) (raw_events : List RawEvent) :
    make_noisy_data rng noise_seed 1 st0 raw_events = ([], st0) := by
  simp [make_noisy_data]

/-- C3 counterexample: np.random.choice is called without replace=False, so
the numpy default samples WITH replacement.  Under the concrete generator
behaviour rng0 (every raw draw 0) and noise_level = 1/2 < 1, the event evC3
with four noise hits gets the selected noise indices [0, 0]: a duplicate,
hence not a sample without replacement. -/
theorem noise_sample_not_without_replacement :
    ((1:ℚ)/2) < 1 ∧
    selectedNoiseIdx rng0 31 (1/2) evC3 = [0, 0] ∧
    ¬ (selectedNoiseIdx rng0 31 (1/2) evC3).Nodup := by
  have hni : noiseIndices evC3.y = [0, 1, 2, 3] := by decide
  have hsz : noiseSampleSize (1/2) 4 = 2 := by
    norm_num [noiseSampleSize]
    decide
  have hsel : selectedNoiseIdx rng0 31 (1/2) evC3 = [0, 0] := by
    simp only [selectedNoiseIdx, selectedNoisePositions, hni, List.length_cons,
      List.length_nil, Nat.reduceAdd, hsz]
    decide
  refine ⟨by norm_num, hsel, ?_⟩
  rw [hsel]
  decide

/-- C3 (amended): for every raw event with noise_level < 1.0, make_noisy_data
retains every non-noise hit and additionally selects exactly
floor(count(noise hits) * noise_level) noise draws; the draws are a sample
WITH replacement (the numpy choice default): every selected index is a noise
index but the selected indices need not be pairwise distinct. -/
theorem noise_sample_with_replacement (rng : Rng) (noise_seed : ℕ)
    (noise_level : ℚ) (ev : RawEvent) (hlev : noise_level < 1) :
    (∀ i ∈ nonNoiseIndices ev.y, i ∈ selectedIndices rng noise_seed noise_level ev) ∧
    (selectedNoiseIdx rng noise_seed noise_level ev).length
      = (⌊((noiseIndices ev.y).length : ℚ) * noise_level⌋).toNat ∧
    (∀ j ∈ selectedNoiseIdx rng noise_seed noise_level ev, j ∈ noiseIndices ev.y) := by
  refine ⟨fun i hi => List.mem_append_left _ hi, ?_, ?_⟩
  · simp [selectedNoiseIdx, selectedNoisePositions, noiseSampleSize]
  · intro j hj
    rcases List.mem_map.mp hj with ⟨p, hp, rfl⟩
    rcases List.mem_map.mp hp with ⟨i, hi, rfl⟩
    have hcount : 0 < (noiseIndices ev.y).length := by
      rcases Nat.eq_zero_or_pos (noiseIndices ev.y).length with h0 | h0
      · rw [h0] at hi
        simp [noiseSampleSize] at hi
      · exact h0
    have hlt : rng noise_seed (NpState.pos ⟨noise_seed, 0⟩ + i)
        (noiseIndices ev.y).length % (noiseIndices ev.y).length
        < (noiseIndices ev.y).length := Nat.mod_lt _ hcount
    rw [List.getD_eq_getElem _ _ hlt]
    exact List.getElem_mem hlt

/-- C3 witness: the amended count statement at the concrete generator rng0,
noise_seed 31, noise_level 1/2 and the all-noise event evC3. -/
theorem noise_sample_with_replacement_witness :
    (selectedNoiseIdx rng0 31 (1/2) evC3).length
      = (⌊((noiseIndices evC3.y).length : ℚ) * (1/2)⌋).toNat :=
  (noise_sample_with_replacement rng0 31 (1/2) evC3 (by norm_num)).2.1

/-- C8: one event of make_noisy_data is persisted if and only if its
selected index union is non-empty (an empty selection is silently skipped),
and the writes of a full run are exactly the per-event writes in order. -/
theorem write_iff_selected_nonempty (rng : Rng) (noise_seed : ℕ)
    (noise_level : ℚ) (ev : RawEvent) (st st0 : NpState)
    (raw_events : List RawEvent) :
    ((processEvent rng noise_seed noise_level ev st).1 ≠ none ↔
      selectedIndices rng noise_seed noise_level ev ≠ []) ∧
    (make_noisy_data rng noise_seed noise_level st0 raw_events).1
      = (if noise_level = 1 then []
          else raw_events.filterMap
            (fun e => (processEvent rng noise_seed noise_level e st0).1)) := by
  constructor
  · rw [processEvent_fst_eq]
    split_ifs with h
    · exact iff_of_true (Option.some_ne_none _) (List.length_pos.mp h)
    · rw [List.length_pos] at h
      exact iff_of_false (fun hc => hc rfl) h
  · simp only [make_noisy_data]
    split_ifs with h
    · simp
    · simpa using foldl_noisy_writes rng noise_seed noise_level raw_events [] st0 st0

/-- C9: the noise selection of an event is independent of the incoming
generator state (the per-event np.random.seed(noise_seed) resets it), and
two events with equally many noise hits draw identical positions within
their noise-index arrays. -/
theorem noise_selection_order_free (rng : Rng) (noise_seed : ℕ)
    (noise_level : ℚ) (ev ev1 ev2 : RawEvent) (st st' : NpState)
    (h : (noiseIndices ev1.y).length = (noiseIndices ev2.y).length) :
    (processEvent rng noise_seed noise_level ev st).1
      = (processEvent rng noise_seed noise_level ev st').1 ∧
    selectedNoisePositions rng (npRandomSeed noise_seed st) noise_level
        (noiseIndices ev1.y).length
      = selectedNoisePositions rng (npRandomSeed noise_seed st') noise_level
        (noiseIndices ev2.y).length := by
  constructor
  · rfl
  · rw [h]
    rfl

/-- C9 witness: the theorem at the concrete generator rng0, two concrete
events with four noise hits each and two distinct incoming states. -/
theorem noise_selection_order_free_witness :
    (processEvent rng0 31 (1/2) evC3 ⟨5, 7⟩).1
      = (processEvent rng0 31 (1/2) evC3 ⟨9, 3⟩).1 ∧
    selectedNoisePositions rng0 (npRandomSeed 31 ⟨5, 7⟩) (1/2)
        (noiseIndices evC3.y).length
      = selectedNoisePositions rng0 (npRandomSeed 31 ⟨9, 3⟩) (1/2)
        (noiseIndices evC9.y).length :=
  noise_selection_order_free rng0 31 (1/2) evC3 evC3 evC9 ⟨5, 7⟩ ⟨9, 3⟩ (by decide)

/-- Embedding of the seed logic in HGCalDataModule.setup: when self.seed is
None it is first replaced by torch.initial_seed() % (2^32 - 1); the result
of the call is seed + get_rank() * num_workers * num_epochs, which is stored
back into self.seed and passed to the global seeding call. -/
def setup_seed (seed : Option ℕ)
    (torch_initial_seed rank num_workers num_epochs : ℕ) : ℕ :=
  (match seed with
    | none => torch_initial_seed % (2 ^ 32 - 1)
    | some s => s) + rank * num_workers * num_epochs

/-- C5 counterexample: with num_workers = 0 (a legal and common dataloader
configuration) the rank offset vanishes, so the distinct ranks 0 and 1
derive the same seed. -/
theorem distinct_ranks_same_seed :
    setup_seed (some 0) 0 0 0 5 = setup_seed (some 0) 0 1 0 5 ∧ (0 : ℕ) ≠ 1 := by
  constructor
  · rfl
  · decide

/-- C5 (amended): the derived seed equals
base_seed + rank * num_workers * num_epochs, and when num_workers and
num_epochs are both positive, distinct ranks produce distinct seeds for any
fixed (base_seed, num_workers, num_epochs). -/
theorem ranks_distinct_seeds (base t r1 r2 w e : ℕ)
    (hw : 0 < w) (he : 0 < e) (h : r1 ≠ r2) :
    setup_seed (some base) t r1 w e = base + r1 * w * e ∧
    setup_seed (some base) t r1 w e ≠ setup_seed (some base) t r2 w e := by
  refine ⟨rfl, ?_⟩
  simp only [setup_seed]
  intro hc
  have h2 := Nat.add_left_cancel hc
  rw [Nat.mul_assoc, Nat.mul_assoc] at h2
  exact h (Nat.eq_of_mul_eq_mul_right (Nat.mul_pos hw he) h2)

/-- C5 witness: the amended theorem at base 0, ranks 2 and 3, one worker
and one epoch. -/
theorem ranks_distinct_seeds_witness :
    setup_seed (some 0) 0 2 1 1 ≠ setup_seed (some 0) 0 3 1 1 :=
  (ranks_distinct_seeds 0 0 2 3 1 1 (by decide) (by decide) (by decide)).2

/-- C10: setup is not idempotent in the seed: a second call on an already
set seed adds the rank offset again, giving base + 2 * rank * num_workers *
num_epochs, and the two calls pass different values to the global seeding
call whenever rank * num_workers * num_epochs is non-zero. -/
theorem setup_seed_not_idempotent (base t r w e : ℕ) :
    setup_seed (some (setup_seed (some base) t r w e)) t r w e
      = base + 2 * (r * w * e) ∧
    (r * w * e ≠ 0 →
      setup_seed (some base) t r w e
        ≠ setup_seed (some (setup_seed (some base) t r w e)) t r w e) := by
  simp only [setup_seed]
  constructor
  · ring
  · intro h hc
    generalize hk : r * w * e = k at h hc
    omega

/-- C10 witness: two successive setup calls at base 10, rank 1, two workers
and three epochs store different seeds. -/
theorem setup_seed_not_idempotent_witness :
    setup_seed (some 10) 0 1 2 3
      ≠ setup_seed (some (setup_seed (some 10) 0 1 2 3)) 0 1 2 3 :=
  (setup_seed_not_idempotent 10 0 1 2 3).2 (by decide)
